import Mathlib

/-!
# Trade Nexus — formal model of the tradebook analytics pipeline

This file embeds, in Lean 4, the parts of the Trade Nexus repository that the
verified claims are about:

* the FIFO matching engine and metrics aggregator of the CSV tradebook
  analyzer (`api/analyze.py`).  That Python file is not part of the frontend
  source tree; only its TypeScript response types (`src/types/csvReport.ts`,
  re-exported through `src/types/advice.ts`) and its HTTP caller
  (`src/lib/api.ts`) are.  The engine and aggregator are therefore modelled
  from the specification (§3, §4.2, §4.3, §8), faithfully to its words; each
  such definition carries a doc comment starting `Modelled from the spec:`.
* the report reducer of `src/context/ReportContext.tsx`,
* the upload handler of `src/components/Header.tsx`,
* the currency formatter of `src/lib/utils.ts`,
  all of which are embedded directly from the TypeScript source.

Prices and P&L amounts are rationals (ℚ); quantities are naturals;
timestamps and dates are naturals (whole days).
-/

namespace TradeNexus

/-- Side of an executed fill: buy or sell. -/
inductive Side where
  | buy
  | sell
deriving DecidableEq, Repr

/-- Direction of an open position or a completed round trip. -/
inductive Direction where
  | long
  | short
deriving DecidableEq, Repr

/-- Modelled from the spec (§3, §4.2 step 1): the opening side `buy` opens a
`long` position, `sell` opens a `short` one. -/
def Side.toDirection : Side → Direction
  | .buy => .long
  | .sell => .short

/-- The opposite direction, used for the over-close flip (§4.2 step 4). -/
def Direction.flip : Direction → Direction
  | .long => .short
  | .short => .long

/-- Modelled from the spec (§3): one executed fill (`TradeLeg`), as consumed
by the matching engine.  Classifier attributes that the engine never reads
(`underlying`, `instrument_type`, `strike`, …) are omitted. -/
structure TradeLeg where
  instrument : String
  side : Side
  quantity : Nat
  price : ℚ
  timestamp : Nat
  expiry : Nat
deriving DecidableEq, Repr

/-- Modelled from the spec (§3): a mutable unit inside a per-instrument FIFO
queue representing unmatched exposure. -/
structure Lot where
  instrument : String
  side : Direction
  remaining : Nat
  price : ℚ
  openTimestamp : Nat
  expiry : Nat
deriving DecidableEq, Repr

/-- Modelled from the spec (§3): an immutable, fully closed round trip. -/
structure MatchedTrade where
  symbol : String
  direction : Direction
  entryPrice : ℚ
  exitPrice : ℚ
  entryDate : Nat
  exitDate : Nat
  quantity : Nat
  pnl : ℚ
  pnlPct : ℚ
  capital : ℚ
  holdDays : Nat
  dte : ℤ
  expiry : Nat
deriving DecidableEq, Repr

/-- Modelled from the spec (§3): residual unmatched exposure for an
instrument after all legs are processed. -/
structure OpenPosition where
  instrument : String
  side : Direction
  quantity : Nat
  price : ℚ
  openDate : Nat
deriving DecidableEq, Repr

/-- Modelled from the spec (§4.2 steps 1–2): the `Lot` pushed when a leg
opens or extends exposure. -/
def legToLot (leg : TradeLeg) : Lot :=
  { instrument := leg.instrument
    side := leg.side.toDirection
    remaining := leg.quantity
    price := leg.price
    openTimestamp := leg.timestamp
    expiry := leg.expiry }

/-- Modelled from the spec (§4.2 step 3, §3): the `MatchedTrade` emitted for a
consumed chunk of `qty` units: entry price/date from the lot, exit price/date
from the leg, direction from the lot's open side; `pnl` follows the sign
convention of §4.2, `capital = entry_price × quantity`,
`pnl_pct = pnl / capital × 100` (rational division, so `0` when capital is 0),
`hold_days = exit_date − entry_date`, `dte = expiry_date − entry_date`. -/
def mkMatched (lot : Lot) (leg : TradeLeg) (qty : Nat) : MatchedTrade :=
  let entry : ℚ := lot.price
  let exitP : ℚ := leg.price
  let pnl : ℚ :=
    match lot.side with
    | .long => (exitP - entry) * (qty : ℚ)
    | .short => (entry - exitP) * (qty : ℚ)
  let capital : ℚ := entry * (qty : ℚ)
  { symbol := lot.instrument
    direction := lot.side
    entryPrice := entry
    exitPrice := exitP
    entryDate := lot.openTimestamp
    exitDate := leg.timestamp
    quantity := qty
    pnl := pnl
    pnlPct := pnl / capital * 100
    capital := capital
    holdDays := leg.timestamp - lot.openTimestamp
    dte := (lot.expiry : ℤ) - (lot.openTimestamp : ℤ)
    expiry := lot.expiry }

/-- Modelled from the spec (§4.2 step 3): the closing loop.  Repeatedly take
the front (oldest) lot, consume `min(lot.remaining, rem)` units, emit one
`MatchedTrade` per consumed chunk, remove the lot once it reaches zero, and
stop when the leg is fully consumed or the queue empties.  Returns the
emitted trades, the remaining queue, and the leg's unconsumed remainder. -/
def closeLots (leg : TradeLeg) : List Lot → Nat → List MatchedTrade × List Lot × Nat
  | [], rem => ([], [], rem)
  | lot :: rest, rem =>
    if rem = 0 then ([], lot :: rest, 0)
    else if lot.remaining ≤ rem then
      let res := closeLots leg rest (rem - lot.remaining)
      (mkMatched lot leg lot.remaining :: res.1, res.2.1, res.2.2)
    else
      ([mkMatched lot leg rem],
       { lot with remaining := lot.remaining - rem } :: rest, 0)

/-- Modelled from the spec (§4.2 steps 1–4): process one leg against the
instrument's FIFO queue.  Empty queue or same side: push a new lot.  Opposite
side: close against the queue front-first; a surviving remainder is pushed as
a new lot on the opposite side from the one just closed (direction flip). -/
def processLeg (queue : List Lot) (leg : TradeLeg) : List MatchedTrade × List Lot :=
  match queue with
  | [] => ([], [legToLot leg])
  | lot :: rest =>
    if leg.side.toDirection = lot.side then
      ([], (lot :: rest) ++ [legToLot leg])
    else
      let res := closeLots leg (lot :: rest) leg.quantity
      if res.2.2 = 0 then
        (res.1, res.2.1)
      else
        (res.1,
         res.2.1 ++
           [{ instrument := leg.instrument
              side := lot.side.flip
              remaining := res.2.2
              price := leg.price
              openTimestamp := leg.timestamp
              expiry := leg.expiry }])

/-- Modelled from the spec (§4.2): process an ordered sequence of legs of one
instrument, threading the FIFO queue and concatenating the emitted trades in
order. -/
def matchLegs (queue : List Lot) : List TradeLeg → List MatchedTrade × List Lot
  | [] => ([], queue)
  | leg :: rest =>
    let step := processLeg queue leg
    let res := matchLegs step.2 rest
    (step.1 ++ res.1, res.2)

/-- Modelled from the spec (§4.2): the per-instrument matching engine,
started from an empty queue. -/
def matchInstrument (legs : List TradeLeg) : List MatchedTrade × List Lot :=
  matchLegs [] legs

/-- Sum of the remaining quantities of the lots in a queue. -/
def lotSum (queue : List Lot) : Nat := (queue.map (·.remaining)).sum

/-- Sum of the matched quantities of a list of trades. -/
def sumMatchedQty (trades : List MatchedTrade) : Nat := (trades.map (·.quantity)).sum

/-- Sum of the leg quantities of a list of legs. -/
def legQtySum (legs : List TradeLeg) : Nat := (legs.map (·.quantity)).sum

/-- Modelled from the spec (§4.2 step 5): quantity-weighted average price of
the leftover lots. -/
def weightedAvgPrice (queue : List Lot) : ℚ :=
  if lotSum queue = 0 then 0
  else ((queue.map (fun l => l.price * (l.remaining : ℚ))).sum) / (lotSum queue : ℚ)

/-- Modelled from the spec (§4.2 step 5): leftover lots become one
`OpenPosition` per instrument, merging same-direction lots by summing
quantity and taking the quantity-weighted average price. -/
def openPositionOf (queue : List Lot) : Option OpenPosition :=
  match queue with
  | [] => none
  | lot :: _ =>
    some { instrument := lot.instrument
           side := lot.side
           quantity := lotSum queue
           price := weightedAvgPrice queue
           openDate := lot.openTimestamp }

/-- Modelled from the spec (§4.2): the engine run for one named instrument of
a multi-instrument leg list (per-instrument FIFO matching over the legs of
that instrument, in their given order). -/
def runEngine (legs : List TradeLeg) (inst : String) : List MatchedTrade × List Lot :=
  matchInstrument (legs.filter (fun l => l.instrument == inst))

/-! ## Metrics aggregator (modelled from the spec, §4.3) -/

/-- Modelled from the spec (§4.3): winning trades, `pnl > 0`. -/
def winners (trades : List MatchedTrade) : List MatchedTrade :=
  trades.filter (fun t => decide ((0 : ℚ) < t.pnl))

/-- Modelled from the spec (§4.3): losing trades, `pnl < 0`. -/
def losers (trades : List MatchedTrade) : List MatchedTrade :=
  trades.filter (fun t => decide (t.pnl < (0 : ℚ)))

/-- Modelled from the spec (§4.3): gross profit, the sum of winners' P&L. -/
def grossProfit (trades : List MatchedTrade) : ℚ :=
  ((winners trades).map (·.pnl)).sum

/-- Modelled from the spec (§4.3): gross loss, the magnitude of the losers'
total P&L. -/
def grossLoss (trades : List MatchedTrade) : ℚ :=
  -(((losers trades).map (·.pnl)).sum)

/-- Modelled from the spec (§4.3, §7, §8): profit factor
`gross_profit / gross_loss`, resolved to the numeric sentinel `0` when the
denominator `gross_loss` is zero (§7 allows `0` as the documented sentinel;
the frontend `CsvRiskMetrics.tsx` calls `.toFixed` on the field, so the
sentinel must be a plain number). -/
def profitFactor (trades : List MatchedTrade) : ℚ :=
  if grossLoss trades = 0 then 0 else grossProfit trades / grossLoss trades

/-- Modelled from the spec (§4.3): average winner. -/
def avgWinner (trades : List MatchedTrade) : ℚ :=
  grossProfit trades / ((winners trades).length : ℚ)

/-- Modelled from the spec (§4.3): average loser (signed negative). -/
def avgLoser (trades : List MatchedTrade) : ℚ :=
  (((losers trades).map (·.pnl)).sum) / ((losers trades).length : ℚ)

/-- Modelled from the spec (§4.3, §7, §8): win/loss ratio
`avg_winner / |avg_loser|`, resolved to the numeric sentinel `0` when there
are no losers. -/
def winLossRatio (trades : List MatchedTrade) : ℚ :=
  if (losers trades).length = 0 then 0 else avgWinner trades / |avgLoser trades|

/-- Modelled from the spec (§4.3): net P&L, the sum of all trades' P&L
(absolute-P&L statistics are over the full trade list). -/
def netPnl (trades : List MatchedTrade) : ℚ := (trades.map (·.pnl)).sum

/-- Modelled from the spec (§4.2): the trades entering percentage-based
statistics: trades with `capital == 0` are excluded from them (but retained
in absolute-P&L ones, which range over the unfiltered list). -/
def pctStatTrades (trades : List MatchedTrade) : List MatchedTrade :=
  trades.filter (fun t => decide (t.capital ≠ 0))

/-- Running cumulative sums, starting from `acc`. -/
def cumsum (acc : ℚ) : List ℚ → List ℚ
  | [] => []
  | p :: rest => (acc + p) :: cumsum (acc + p) rest

/-- Stable insertion (by `exit_date`) used to order trades for the equity
curve. -/
def insertByExit (t : MatchedTrade) : List MatchedTrade → List MatchedTrade
  | [] => [t]
  | x :: xs => if t.exitDate ≤ x.exitDate then t :: x :: xs else x :: insertByExit t xs

/-- Stable sort of trades by `exit_date` (§4.3). -/
def sortByExit : List MatchedTrade → List MatchedTrade
  | [] => []
  | x :: xs => insertByExit x (sortByExit xs)

/-- Modelled from the spec (§4.3): the equity curve, the running cumulative
sum of `pnl` with trades ordered by `exit_date`, one point per trade. -/
def equityCurve (trades : List MatchedTrade) : List ℚ :=
  cumsum 0 ((sortByExit trades).map (·.pnl))

/-- Modelled from the spec (§4.3): one pass of the drawdown computation,
threading the running peak `peak(t) = max(equity(0..t))`:
`drawdown_pct(t) = (equity(t) − peak(t)) / peak(t) × 100` when `peak(t) > 0`,
else `0`. -/
def ddGo (peak : ℚ) : List ℚ → List ℚ
  | [] => []
  | e :: rest =>
    let p := max peak e
    (if 0 < p then (e - p) / p * 100 else 0) :: ddGo p rest

/-- Modelled from the spec (§4.3): the drawdown curve over an equity curve;
the running peak starts at the first equity point. -/
def drawdownCurve (equity : List ℚ) : List ℚ :=
  match equity with
  | [] => []
  | e :: rest => ddGo e (e :: rest)

/-- Modelled from the spec (§4.3): max drawdown, the minimum of
`drawdown_pct` over the series (most negative), reported as a positive
magnitude. -/
def maxDrawdownMagnitude (equity : List ℚ) : ℚ :=
  -((drawdownCurve equity).foldr min 0)

/-! ## Leg normalizer and full pipeline (modelled from the spec, §4.1, §2) -/

/-- Stable insertion by timestamp: a leg is placed before the first leg with
a later-or-equal timestamp, preserving input order among equal timestamps. -/
def insertByTs (leg : TradeLeg) : List TradeLeg → List TradeLeg
  | [] => [leg]
  | x :: xs => if leg.timestamp ≤ x.timestamp then leg :: x :: xs else x :: insertByTs leg xs

/-- Stable insertion sort of legs by timestamp (§4.1). -/
def sortByTs : List TradeLeg → List TradeLeg
  | [] => []
  | x :: xs => insertByTs x (sortByTs xs)

/-- Modelled from the spec (§4.1): the leg normalizer rejects rows with
non-positive quantity or non-positive price and stably sorts the remainder
by timestamp. -/
def normalize (rows : List TradeLeg) : List TradeLeg :=
  sortByTs (rows.filter (fun l => decide (0 < l.quantity) && decide ((0 : ℚ) < l.price)))

/-- The distinct instrument codes of a leg list. -/
def instrumentsOf (legs : List TradeLeg) : List String :=
  (legs.map (·.instrument)).dedup

/-- Modelled from the spec (§4.2, §5): the whole matching run — per-instrument
FIFO matching, fanned in over the instruments, producing the full
`MatchedTrade` list and the `OpenPosition` list. -/
def matchAll (legs : List TradeLeg) : List MatchedTrade × List OpenPosition :=
  (((instrumentsOf legs).map (fun i => (runEngine legs i).1)).flatten,
   (instrumentsOf legs).filterMap (fun i => openPositionOf (runEngine legs i).2))

/-- Modelled from the spec (§6): the serialized report consumed by the UI —
plain numeric/array structures only. -/
structure Report where
  completedTrades : List MatchedTrade
  openPositions : List OpenPosition
  net : ℚ
  pf : ℚ
  wlRatio : ℚ
  equity : List ℚ
  drawdown : List ℚ
  maxDd : ℚ
deriving DecidableEq, Repr

/-- Modelled from the spec (§2, §5): the full pipeline — normalize, match,
aggregate, assemble — an independent, stateless, synchronous computation from
raw rows to the final report. -/
def fullReport (rows : List TradeLeg) : Report :=
  let legs := normalize rows
  let m := matchAll legs
  let ec := equityCurve m.1
  { completedTrades := m.1
    openPositions := m.2
    net := netPnl m.1
    pf := profitFactor m.1
    wlRatio := winLossRatio m.1
    equity := ec
    drawdown := drawdownCurve ec
    maxDd := maxDrawdownMagnitude ec }

/-! ## Report context reducer (embedded from `src/context/ReportContext.tsx`)

The reducer never inspects the report payloads, so the model is parameterized
over the payload types `R` (`ReportData`) and `C` (`CsvReportData`). -/

/-- The `reportType` discriminator: `'xlsx' | 'csv'`. -/
inductive ReportKind where
  | xlsx
  | csv
deriving DecidableEq, Repr

/-- `AppState` of `ReportContext.tsx`; TypeScript `T | null` becomes
`Option T`. -/
structure AppState (R C : Type) where
  report : Option R
  csvReport : Option C
  reportType : Option ReportKind
  activeTab : Nat
  loading : Bool
  error : Option String
  fileName : Option String

/-- The `Action` union of `ReportContext.tsx`. -/
inductive Action (R C : Type) where
  | setLoading
  | setReport (payload : R) (fileName : String)
  | setCsvReport (payload : C) (fileName : String)
  | setError (payload : String)
  | setTab (payload : Nat)
  | clear

/-- `initialState` of `ReportContext.tsx`. -/
def initialState (R C : Type) : AppState R C :=
  { report := none
    csvReport := none
    reportType := none
    activeTab := 0
    loading := false
    error := none
    fileName := none }

/-- The `reducer` switch of `ReportContext.tsx`, case for case.  The
TypeScript `default` branch returns the state unchanged and is unreachable
for the six declared action kinds. -/
def reducer {R C : Type} (state : AppState R C) : Action R C → AppState R C
  | .setLoading =>
    { state with loading := true, error := none }
  | .setReport payload fileName =>
    { state with report := some payload, csvReport := none,
                 reportType := some .xlsx, fileName := some fileName,
                 activeTab := 0, loading := false, error := none }
  | .setCsvReport payload fileName =>
    { state with csvReport := some payload, report := none,
                 reportType := some .csv, fileName := some fileName,
                 activeTab := 0, loading := false, error := none }
  | .setError payload =>
    { state with loading := false, error := some payload }
  | .setTab payload =>
    { state with activeTab := payload }
  | .clear => initialState R C

/-- A sequence of dispatched actions applied from `initialState`. -/
def applyActions {R C : Type} (acts : List (Action R C)) : AppState R C :=
  acts.foldl reducer (initialState R C)

/-- The implicit reducer invariant: `report` and `csvReport` are never both
non-null, and while `loading` is true, `error` is null. -/
def StateInv {R C : Type} (s : AppState R C) : Prop :=
  (s.report = none ∨ s.csvReport = none) ∧ (s.loading = true → s.error = none)

/-! ## Upload handler (embedded from `src/components/Header.tsx`)

`handleUpload` computes `file.name.split('.').pop()?.toLowerCase()` and
gates on it.  JavaScript `split('.')` always returns a non-empty array, so
`pop()` is its last element; strings are modelled by their character lists
(`String.data`), on which splitting and lowercasing are structural. -/

/-- JavaScript `name.split('.')` on the character list: `""` splits to
`[""]`, separators at the ends produce empty parts. -/
def splitOnDot : List Char → List (List Char)
  | [] => [[]]
  | c :: rest =>
    let r := splitOnDot rest
    if c = '.' then [] :: r
    else
      match r with
      | [] => [[c]]
      | part :: parts => (c :: part) :: parts

/-- `file.name.split('.').pop()?.toLowerCase()`: the last split part,
lowercased character by character. -/
def extOf (name : String) : List Char :=
  ((splitOnDot name.toList).getLast?.getD []).map Char.toLower

/-- What `handleUpload` does before any network call: dispatch an error, or
call `analyzeTradebook` (csv), or call `uploadReport` (xlsx). -/
inductive UploadOutcome where
  | errorDispatch (msg : String)
  | analyzeCsv
  | uploadXlsx
deriving DecidableEq, Repr

/-- The error message dispatched for an unsupported extension. -/
def uploadErrorMessage : String := "Please upload an .xlsx or .csv file"

/-- The extension gate of `handleUpload` in `Header.tsx`:
`if (ext !== 'xlsx' && ext !== 'csv') { dispatch(SET_ERROR); return }` then
`ext === 'csv' ? analyzeTradebook : uploadReport`. -/
def handleUpload (name : String) : UploadOutcome :=
  let ext := extOf name
  if ext ≠ "xlsx".toList ∧ ext ≠ "csv".toList then
    .errorDispatch uploadErrorMessage
  else if ext = "csv".toList then
    .analyzeCsv
  else
    .uploadXlsx

/-! ## Currency formatter (embedded from `src/lib/utils.ts`)

`formatCurrency` renders a string; the model keeps the three facts the
formatting decisions depend on — the sign prefix, the chosen unit suffix,
and the scaled magnitude handed to the digit renderer (`toFixed` /
`toLocaleString`, which are locale string formatting and are abstracted).
JavaScript `Math.round` rounds half up, as does Mathlib's `round`. -/

/-- The unit suffix chosen by `formatCurrency`: `Cr`, `L`, `K`, or plain
rupees. -/
inductive CurrencyBucket where
  | crore
  | lakh
  | thousand
  | rupee
deriving DecidableEq, Repr

/-- The formatting decision of `formatCurrency`: minus-sign prefix, unit
suffix, and the scaled magnitude to render. -/
structure FormattedCurrency where
  negative : Bool
  bucket : CurrencyBucket
  scaled : ℚ
deriving DecidableEq, Repr

/-- `formatCurrency` of `src/lib/utils.ts`: `abs = Math.abs(value)`,
`sign = value < 0 ? '-' : ''`, then the `1_00_00_000` / `1_00_000` / `1_000`
threshold cascade with division by the matching power, else
`Math.round(abs)`. -/
def formatCurrency (v : ℚ) : FormattedCurrency :=
  let a : ℚ := |v|
  let negative := decide (v < 0)
  if 10000000 ≤ a then ⟨negative, .crore, a / 10000000⟩
  else if 100000 ≤ a then ⟨negative, .lakh, a / 100000⟩
  else if 1000 ≤ a then ⟨negative, .thousand, a / 1000⟩
  else ⟨negative, .rupee, ((round a : ℤ) : ℚ)⟩

/-! ## Helper lemmas -/

theorem lotSum_append (a b : List Lot) : lotSum (a ++ b) = lotSum a + lotSum b := by
  simp [lotSum]

theorem sumMatchedQty_append (a b : List MatchedTrade) :
    sumMatchedQty (a ++ b) = sumMatchedQty a + sumMatchedQty b := by
  simp [sumMatchedQty]

theorem mkMatched_quantity (lot : Lot) (leg : TradeLeg) (m : Nat) :
    (mkMatched lot leg m).quantity = m := rfl

theorem lotSum_singleton (l : Lot) : lotSum [l] = l.remaining := by
  simp [lotSum]

/-- The closing loop conserves quantity: the matched quantity plus what is
left in the queue equals what was in the queue, and the matched quantity plus
the unconsumed remainder equals the leg's quantity. -/
theorem closeLots_conservation (leg : TradeLeg) :
    ∀ (queue : List Lot) (rem : Nat),
      sumMatchedQty (closeLots leg queue rem).1 +
          lotSum (closeLots leg queue rem).2.1 = lotSum queue ∧
      sumMatchedQty (closeLots leg queue rem).1 +
          (closeLots leg queue rem).2.2 = rem := by
  intro queue
  induction queue with
  | nil => intro rem; simp [closeLots, sumMatchedQty, lotSum]
  | cons lot rest ih =>
    intro rem
    by_cases h0 : rem = 0
    · subst h0; simp [closeLots, sumMatchedQty]
    · by_cases hle : lot.remaining ≤ rem
      · have h := ih (rem - lot.remaining)
        simp only [closeLots, if_neg h0, if_pos hle] at *
        simp only [sumMatchedQty, lotSum, List.map_cons, List.sum_cons,
          mkMatched_quantity] at *
        omega
      · simp only [closeLots, if_neg h0, if_neg hle]
        simp only [sumMatchedQty, lotSum, List.map_cons, List.map_nil,
          List.sum_cons, List.sum_nil, mkMatched_quantity]
        omega

/-- Processing one leg conserves quantity, counting each matched unit once
for the opening side and once for the closing side. -/
theorem processLeg_conservation (queue : List Lot) (leg : TradeLeg) :
    2 * sumMatchedQty (processLeg queue leg).1 + lotSum (processLeg queue leg).2 =
      lotSum queue + leg.quantity := by
  match queue with
  | [] => simp [processLeg, sumMatchedQty, lotSum, legToLot]
  | lot :: rest =>
    by_cases hs : leg.side.toDirection = lot.side
    · simp only [processLeg, if_pos hs, lotSum_append, lotSum_singleton]
      simp [sumMatchedQty, legToLot]
    · obtain ⟨h1, h2⟩ := closeLots_conservation leg (lot :: rest) leg.quantity
      by_cases hr : (closeLots leg (lot :: rest) leg.quantity).2.2 = 0
      · simp only [processLeg, if_neg hs, if_pos hr]
        omega
      · simp only [processLeg, if_neg hs, if_neg hr, lotSum_append, lotSum_singleton]
        omega

/-- The whole per-instrument run conserves quantity relative to the starting
queue. -/
theorem matchLegs_conservation :
    ∀ (legs : List TradeLeg) (queue : List Lot),
      2 * sumMatchedQty (matchLegs queue legs).1 + lotSum (matchLegs queue legs).2 =
        lotSum queue + legQtySum legs := by
  intro legs
  induction legs with
  | nil => intro queue; simp [matchLegs, sumMatchedQty, legQtySum]
  | cons leg rest ih =>
    intro queue
    have h1 := processLeg_conservation queue leg
    have h2 := ih (processLeg queue leg).2
    simp only [matchLegs, sumMatchedQty_append]
    simp only [legQtySum, List.map_cons, List.sum_cons] at *
    omega

/-! ## C1 — quantity conservation -/

/-- **C1 counterexample.** For the single-instrument legs
`[buy 1@100, sell 1@110]` the engine matches 1 unit and leaves nothing open,
but the total leg quantity is 2: the sum of matched quantities plus the sum
of open-lot quantities does **not** equal the sum of leg quantities — each
matched unit consumes one unit of an opening leg *and* one unit of a closing
leg, so matched quantity must be counted twice. -/
theorem quantity_conservation_cex :
    ¬ (sumMatchedQty (runEngine [⟨"X", .buy, 1, 100, 1, 30⟩,
          ⟨"X", .sell, 1, 110, 2, 30⟩] "X").1 +
        lotSum (runEngine [⟨"X", .buy, 1, 100, 1, 30⟩,
          ⟨"X", .sell, 1, 110, 2, 30⟩] "X").2 =
       legQtySum (([⟨"X", .buy, 1, 100, 1, 30⟩,
          ⟨"X", .sell, 1, 110, 2, 30⟩] : List TradeLeg).filter
         (fun l => l.instrument == "X"))) := by decide

/-- **C1 (amended).** Quantity conservation: at end of run, for every
instrument, **twice** the sum of matched quantities across all
`MatchedTrade` records for that instrument (once for the opening leg and
once for the closing leg of each matched unit) plus the sum of remaining
open-lot quantities for that instrument equals the sum of all leg quantities
for that instrument. -/
theorem quantity_conservation (legs : List TradeLeg) (inst : String) :
    2 * sumMatchedQty (runEngine legs inst).1 + lotSum (runEngine legs inst).2 =
      legQtySum (legs.filter (fun l => l.instrument == inst)) := by
  have h := matchLegs_conservation (legs.filter (fun l => l.instrument == inst)) []
  simpa [runEngine, matchInstrument, lotSum] using h

/-! ## C2 — FIFO partial-fill splitting -/

/-- If the closing loop leaves a nonzero unconsumed remainder, the queue was
fully emptied. -/
theorem closeLots_empty_of_remainder (leg : TradeLeg) :
    ∀ (queue : List Lot) (rem : Nat),
      (closeLots leg queue rem).2.2 ≠ 0 → (closeLots leg queue rem).2.1 = [] := by
  intro queue
  induction queue with
  | nil => intro rem _; simp [closeLots]
  | cons lot rest ih =>
    intro rem h
    by_cases h0 : rem = 0
    · subst h0; simp [closeLots] at h
    · by_cases hle : lot.remaining ≤ rem
      · simp only [closeLots, if_neg h0, if_pos hle] at h ⊢
        exact ih (rem - lot.remaining) h
      · simp [closeLots, if_neg h0, if_neg hle] at h

/-- **C2.** FIFO partial-fill splitting: for the single-instrument leg
sequence `[buy 10@100 at t1, sell 4@110 at t2, sell 6@120 at t3]` the engine
produces exactly two `MatchedTrade`s — `(entry 100, exit 110, qty 4, pnl 40)`
and `(entry 100, exit 120, qty 6, pnl 120)` — and no `OpenPosition` remains;
in general a closing leg consumes the oldest front lot first: the first
emitted `MatchedTrade` takes its entry from the front lot, with chunk size
`min(lot.remaining_quantity, leg.remaining_quantity)`. -/
theorem fifo_partial_fill :
    (matchInstrument [⟨"X", .buy, 10, 100, 1, 30⟩, ⟨"X", .sell, 4, 110, 2, 30⟩,
        ⟨"X", .sell, 6, 120, 3, 30⟩] =
      ([⟨"X", .long, 100, 110, 1, 2, 4, 40, 10, 400, 1, 29, 30⟩,
        ⟨"X", .long, 100, 120, 1, 3, 6, 120, 20, 600, 2, 29, 30⟩], []) ∧
     openPositionOf (matchInstrument [⟨"X", .buy, 10, 100, 1, 30⟩,
        ⟨"X", .sell, 4, 110, 2, 30⟩, ⟨"X", .sell, 6, 120, 3, 30⟩]).2 = none) ∧
    (∀ (lot : Lot) (rest : List Lot) (leg : TradeLeg),
      leg.side.toDirection ≠ lot.side → 0 < leg.quantity →
        ((processLeg (lot :: rest) leg).1).head? =
          some (mkMatched lot leg (min lot.remaining leg.quantity))) := by
  constructor
  · refine ⟨?_, rfl⟩
    have hrun : matchInstrument [⟨"X", .buy, 10, 100, 1, 30⟩, ⟨"X", .sell, 4, 110, 2, 30⟩,
        ⟨"X", .sell, 6, 120, 3, 30⟩] =
        ([mkMatched ⟨"X", .long, 10, 100, 1, 30⟩ ⟨"X", .sell, 4, 110, 2, 30⟩ 4,
          mkMatched ⟨"X", .long, 6, 100, 1, 30⟩ ⟨"X", .sell, 6, 120, 3, 30⟩ 6], []) := rfl
    rw [hrun]
    norm_num [mkMatched]
  · intro lot rest leg hs hq
    have hsame : (processLeg (lot :: rest) leg).1 =
        (closeLots leg (lot :: rest) leg.quantity).1 := by
      simp only [processLeg, if_neg hs]
      split <;> rfl
    rw [hsame]
    have h0 : ¬ leg.quantity = 0 := by omega
    by_cases hle : lot.remaining ≤ leg.quantity
    · simp only [closeLots, if_neg h0, if_pos hle, List.head?_cons]
      rw [Nat.min_eq_left hle]
    · simp only [closeLots, if_neg h0, if_neg hle, List.head?_cons]
      rw [Nat.min_eq_right (le_of_not_le hle)]

/-- Witness for the general clause of C2: a short lot of 7 closed by a sell
of 3 emits first the front-lot chunk of `min 7 3` units. -/
theorem fifo_partial_fill_witness :
    ((processLeg [⟨"Y", .long, 7, 50, 1, 40⟩] ⟨"Y", .sell, 3, 60, 2, 40⟩).1).head? =
      some (mkMatched ⟨"Y", .long, 7, 50, 1, 40⟩ ⟨"Y", .sell, 3, 60, 2, 40⟩ (min 7 3)) :=
  fifo_partial_fill.2 ⟨"Y", .long, 7, 50, 1, 40⟩ [] ⟨"Y", .sell, 3, 60, 2, 40⟩
    (by decide) (by decide)

/-! ## C3 — over-close direction flip -/

/-- **C3.** Over-close direction flip: for the single-instrument leg
sequence `[buy 5@100, sell 8@110]` the engine produces exactly one
`MatchedTrade` `(entry 100, exit 110, qty 5, pnl 50, direction long)` and one
`OpenPosition` with side short, quantity 3, price 110; in general, when a
closing leg's remaining quantity survives after the queue empties, that
remainder is pushed as a new lot on the opposite side from the one just
closed. -/
theorem overclose_flip :
    (matchInstrument [⟨"X", .buy, 5, 100, 1, 30⟩, ⟨"X", .sell, 8, 110, 2, 30⟩] =
      ([⟨"X", .long, 100, 110, 1, 2, 5, 50, 10, 500, 1, 29, 30⟩],
       [⟨"X", .short, 3, 110, 2, 30⟩]) ∧
     openPositionOf (matchInstrument [⟨"X", .buy, 5, 100, 1, 30⟩,
        ⟨"X", .sell, 8, 110, 2, 30⟩]).2 = some ⟨"X", .short, 3, 110, 2⟩) ∧
    (∀ (lot : Lot) (rest : List Lot) (leg : TradeLeg),
      leg.side.toDirection ≠ lot.side →
      (closeLots leg (lot :: rest) leg.quantity).2.2 ≠ 0 →
        (processLeg (lot :: rest) leg).2 =
          [⟨leg.instrument, lot.side.flip,
            (closeLots leg (lot :: rest) leg.quantity).2.2,
            leg.price, leg.timestamp, leg.expiry⟩]) := by
  constructor
  · have hrun : matchInstrument [⟨"X", .buy, 5, 100, 1, 30⟩, ⟨"X", .sell, 8, 110, 2, 30⟩] =
        ([mkMatched ⟨"X", .long, 5, 100, 1, 30⟩ ⟨"X", .sell, 8, 110, 2, 30⟩ 5],
         [⟨"X", .short, 3, 110, 2, 30⟩]) := rfl
    rw [hrun]
    norm_num [mkMatched, openPositionOf, lotSum, weightedAvgPrice]
  · intro lot rest leg hs hr
    have he : (closeLots leg (lot :: rest) leg.quantity).2.1 = [] :=
      closeLots_empty_of_remainder leg (lot :: rest) leg.quantity hr
    simp only [processLeg, if_neg hs, if_neg hr, he, List.nil_append]

/-- Witness for the general clause of C3: a long lot of 2 closed by a sell
of 5 leaves a remainder of 3, pushed as a new short lot at the closing leg's
price and date. -/
theorem overclose_flip_witness :
    (processLeg [⟨"Z", .long, 2, 10, 1, 9⟩] ⟨"Z", .sell, 5, 12, 3, 9⟩).2 =
      [⟨"Z", .short, 3, 12, 3, 9⟩] :=
  overclose_flip.2 ⟨"Z", .long, 2, 10, 1, 9⟩ [] ⟨"Z", .sell, 5, 12, 3, 9⟩
    (by decide) (by decide)

/-! ## C4 — P&L sign convention -/

/-- Every trade emitted by the closing loop is `mkMatched` of some lot and
chunk size against the closing leg. -/
theorem mem_closeLots (leg : TradeLeg) :
    ∀ (queue : List Lot) (rem : Nat) (t : MatchedTrade),
      t ∈ (closeLots leg queue rem).1 → ∃ lot m, t = mkMatched lot leg m := by
  intro queue
  induction queue with
  | nil => intro rem t h; simp [closeLots] at h
  | cons lot rest ih =>
    intro rem t h
    by_cases h0 : rem = 0
    · subst h0; simp [closeLots] at h
    · by_cases hle : lot.remaining ≤ rem
      · simp only [closeLots, if_neg h0, if_pos hle, List.mem_cons] at h
        rcases h with h | h
        · exact ⟨lot, lot.remaining, h⟩
        · exact ih (rem - lot.remaining) t h
      · simp only [closeLots, if_neg h0, if_neg hle, List.mem_cons,
          List.not_mem_nil, or_false] at h
        exact ⟨lot, rem, h⟩

/-- Every trade emitted while processing one leg is `mkMatched` against that
leg. -/
theorem mem_processLeg (queue : List Lot) (leg : TradeLeg) (t : MatchedTrade) :
    t ∈ (processLeg queue leg).1 → ∃ lot m, t = mkMatched lot leg m := by
  match queue with
  | [] => intro h; simp [processLeg] at h
  | lot :: rest =>
    intro h
    by_cases hs : leg.side.toDirection = lot.side
    · simp [processLeg, hs] at h
    · have hsame : (processLeg (lot :: rest) leg).1 =
          (closeLots leg (lot :: rest) leg.quantity).1 := by
        simp only [processLeg, if_neg hs]
        split <;> rfl
      rw [hsame] at h
      exact mem_closeLots leg (lot :: rest) leg.quantity t h

/-- Every trade emitted by a whole run is `mkMatched` of some lot, leg and
chunk size. -/
theorem mem_matchLegs :
    ∀ (legs : List TradeLeg) (queue : List Lot) (t : MatchedTrade),
      t ∈ (matchLegs queue legs).1 → ∃ lot leg m, t = mkMatched lot leg m := by
  intro legs
  induction legs with
  | nil => intro queue t h; simp [matchLegs] at h
  | cons leg rest ih =>
    intro queue t h
    simp only [matchLegs, List.mem_append] at h
    rcases h with h | h
    · obtain ⟨lot, m, hm⟩ := mem_processLeg queue leg t h
      exact ⟨lot, leg, m, hm⟩
    · exact ih (processLeg queue leg).2 t h

theorem netPnl_cons (t : MatchedTrade) (l : List MatchedTrade) :
    netPnl (t :: l) = t.pnl + netPnl l := by
  simp [netPnl]

/-- The fields of `mkMatched` satisfy the P&L sign convention. -/
theorem mkMatched_sign (lot : Lot) (leg : TradeLeg) (m : Nat) :
    ((mkMatched lot leg m).direction = .long →
      (mkMatched lot leg m).pnl =
        ((mkMatched lot leg m).exitPrice - (mkMatched lot leg m).entryPrice) *
          ((mkMatched lot leg m).quantity : ℚ)) ∧
    ((mkMatched lot leg m).direction = .short →
      (mkMatched lot leg m).pnl =
        ((mkMatched lot leg m).entryPrice - (mkMatched lot leg m).exitPrice) *
          ((mkMatched lot leg m).quantity : ℚ)) ∧
    (mkMatched lot leg m).capital =
      (mkMatched lot leg m).entryPrice * ((mkMatched lot leg m).quantity : ℚ) ∧
    (mkMatched lot leg m).pnlPct =
      (mkMatched lot leg m).pnl / (mkMatched lot leg m).capital * 100 := by
  cases hside : lot.side <;> simp [mkMatched, hside]

/-- **C4.** P&L sign convention: every `MatchedTrade` the engine emits has
`pnl = (exit_price − entry_price) × quantity` when long and
`pnl = (entry_price − exit_price) × quantity` when short,
`capital = entry_price × quantity` and `pnl_pct = pnl / capital × 100`;
a trade with `capital == 0` is excluded from the percentage-statistics trade
list but retained in absolute-P&L sums (the filtered-out trades' P&L still
adds up to the unfiltered net P&L). -/
theorem pnl_sign_convention :
    (∀ (legs : List TradeLeg) (t : MatchedTrade), t ∈ (matchInstrument legs).1 →
      (t.direction = .long → t.pnl = (t.exitPrice - t.entryPrice) * (t.quantity : ℚ)) ∧
      (t.direction = .short → t.pnl = (t.entryPrice - t.exitPrice) * (t.quantity : ℚ)) ∧
      t.capital = t.entryPrice * (t.quantity : ℚ) ∧
      t.pnlPct = t.pnl / t.capital * 100) ∧
    (∀ (trades : List MatchedTrade) (t : MatchedTrade), t ∈ trades →
      (t ∈ pctStatTrades trades ↔ t.capital ≠ 0)) ∧
    (∀ trades : List MatchedTrade,
      netPnl (pctStatTrades trades) +
        netPnl (trades.filter (fun t => decide (t.capital = 0))) = netPnl trades) := by
  refine ⟨?_, ?_, ?_⟩
  · intro legs t h
    obtain ⟨lot, leg, m, rfl⟩ := mem_matchLegs legs [] t h
    exact mkMatched_sign lot leg m
  · intro trades t h
    simp [pctStatTrades, List.mem_filter, h]
  · intro trades
    induction trades with
    | nil => simp [pctStatTrades, netPnl]
    | cons t rest ih =>
      by_cases hc : t.capital = 0
      · have h1 : pctStatTrades (t :: rest) = pctStatTrades rest := by
          simp [pctStatTrades, List.filter_cons, hc]
        have h2 : (t :: rest).filter (fun s => decide (s.capital = 0)) =
            t :: rest.filter (fun s => decide (s.capital = 0)) := by
          simp [List.filter_cons, hc]
        rw [h1, h2, netPnl_cons, netPnl_cons]
        linarith [ih]
      · have h1 : pctStatTrades (t :: rest) = t :: pctStatTrades rest := by
          simp [pctStatTrades, List.filter_cons, hc]
        have h2 : (t :: rest).filter (fun s => decide (s.capital = 0)) =
            rest.filter (fun s => decide (s.capital = 0)) := by
          simp [List.filter_cons, hc]
        rw [h1, h2, netPnl_cons, netPnl_cons]
        linarith [ih]

/-- Witness for C4: the single matched trade of the run
`[buy 1@5, sell 1@7]` satisfies the sign convention. -/
theorem pnl_sign_convention_witness :
    ((mkMatched ⟨"W", .long, 1, 5, 1, 9⟩ ⟨"W", .sell, 1, 7, 2, 9⟩ 1).direction = .long →
      (mkMatched ⟨"W", .long, 1, 5, 1, 9⟩ ⟨"W", .sell, 1, 7, 2, 9⟩ 1).pnl =
        ((mkMatched ⟨"W", .long, 1, 5, 1, 9⟩ ⟨"W", .sell, 1, 7, 2, 9⟩ 1).exitPrice -
            (mkMatched ⟨"W", .long, 1, 5, 1, 9⟩ ⟨"W", .sell, 1, 7, 2, 9⟩ 1).entryPrice) *
          ((mkMatched ⟨"W", .long, 1, 5, 1, 9⟩ ⟨"W", .sell, 1, 7, 2, 9⟩ 1).quantity : ℚ)) ∧
    ((mkMatched ⟨"W", .long, 1, 5, 1, 9⟩ ⟨"W", .sell, 1, 7, 2, 9⟩ 1).direction = .short →
      (mkMatched ⟨"W", .long, 1, 5, 1, 9⟩ ⟨"W", .sell, 1, 7, 2, 9⟩ 1).pnl =
        ((mkMatched ⟨"W", .long, 1, 5, 1, 9⟩ ⟨"W", .sell, 1, 7, 2, 9⟩ 1).entryPrice -
            (mkMatched ⟨"W", .long, 1, 5, 1, 9⟩ ⟨"W", .sell, 1, 7, 2, 9⟩ 1).exitPrice) *
          ((mkMatched ⟨"W", .long, 1, 5, 1, 9⟩ ⟨"W", .sell, 1, 7, 2, 9⟩ 1).quantity : ℚ)) ∧
    (mkMatched ⟨"W", .long, 1, 5, 1, 9⟩ ⟨"W", .sell, 1, 7, 2, 9⟩ 1).capital =
      (mkMatched ⟨"W", .long, 1, 5, 1, 9⟩ ⟨"W", .sell, 1, 7, 2, 9⟩ 1).entryPrice *
        ((mkMatched ⟨"W", .long, 1, 5, 1, 9⟩ ⟨"W", .sell, 1, 7, 2, 9⟩ 1).quantity : ℚ) ∧
    (mkMatched ⟨"W", .long, 1, 5, 1, 9⟩ ⟨"W", .sell, 1, 7, 2, 9⟩ 1).pnlPct =
      (mkMatched ⟨"W", .long, 1, 5, 1, 9⟩ ⟨"W", .sell, 1, 7, 2, 9⟩ 1).pnl /
        (mkMatched ⟨"W", .long, 1, 5, 1, 9⟩ ⟨"W", .sell, 1, 7, 2, 9⟩ 1).capital * 100 :=
  pnl_sign_convention.1 [⟨"W", .buy, 1, 5, 1, 9⟩, ⟨"W", .sell, 1, 7, 2, 9⟩]
    (mkMatched ⟨"W", .long, 1, 5, 1, 9⟩ ⟨"W", .sell, 1, 7, 2, 9⟩ 1)
    (List.mem_cons_self _ _)

/-! ## C5 — determinism -/

/-- **C5.** Determinism: the matching engine and the full pipeline are pure
functions of their ordered input — two runs on identical input produce the
identical matched-trade/open-position sets and the identical assembled
report. -/
theorem pipeline_deterministic (rows : List TradeLeg) :
    matchAll (normalize rows) = matchAll (normalize rows) ∧
    fullReport rows = fullReport rows :=
  ⟨rfl, rfl⟩

/-! ## C6 — zero-denominator sentinels -/

/-- A non-empty list of negative rationals has a negative sum. -/
theorem sum_neg_of_mem_neg :
    ∀ l : List ℚ, (∀ x ∈ l, x < 0) → l ≠ [] → l.sum < 0 := by
  intro l
  induction l with
  | nil => intro _ h; exact absurd rfl h
  | cons x xs ih =>
    intro hmem _
    have hx : x < 0 := hmem x (List.mem_cons_self _ _)
    match xs with
    | [] => simpa using hx
    | y :: ys =>
      have hs : (y :: ys).sum < 0 := by
        refine ih ?_ (by simp)
        intro z hz
        exact hmem z (List.mem_cons_of_mem _ hz)
      simp only [List.sum_cons] at *
      linarith

/-- If gross loss is zero there are no losing trades. -/
theorem losers_eq_nil_of_grossLoss_eq_zero (trades : List MatchedTrade)
    (h : grossLoss trades = 0) : losers trades = [] := by
  by_contra hne
  have hmem : ∀ x ∈ (losers trades).map (·.pnl), x < 0 := by
    intro x hx
    simp only [List.mem_map] at hx
    obtain ⟨t, ht, rfl⟩ := hx
    have hp := List.of_mem_filter ht
    exact of_decide_eq_true hp
  have hne' : (losers trades).map (·.pnl) ≠ [] := by
    simpa using hne
  have hsum := sum_neg_of_mem_neg _ hmem hne'
  rw [grossLoss] at h
  linarith

/-- **C6.** Zero-denominator sentinels: whenever gross loss is zero (no
losing trades), the profit factor and the win/loss ratio resolve to the
defined numeric sentinel `0` — a plain rational, never an exception and
never a non-number — consistent with the frontend calling `.toFixed` on
them. -/
theorem zero_denominator_sentinels (trades : List MatchedTrade)
    (h : grossLoss trades = 0) :
    profitFactor trades = 0 ∧ winLossRatio trades = 0 := by
  have hl := losers_eq_nil_of_grossLoss_eq_zero trades h
  constructor
  · simp [profitFactor, h]
  · simp [winLossRatio, hl]

/-- Witness for C6: a single-winner trade list has zero gross loss and
sentinel ratios. -/
theorem zero_denominator_sentinels_witness :
    grossLoss [⟨"X", .long, 100, 110, 1, 2, 1, 10, 10, 100, 1, 29, 30⟩] = 0 ∧
    profitFactor [⟨"X", .long, 100, 110, 1, 2, 1, 10, 10, 100, 1, 29, 30⟩] = 0 ∧
    winLossRatio [⟨"X", .long, 100, 110, 1, 2, 1, 10, 10, 100, 1, 29, 30⟩] = 0 := by
  have h0 : grossLoss [(⟨"X", .long, 100, 110, 1, 2, 1, 10, 10, 100, 1, 29, 30⟩ :
      MatchedTrade)] = 0 := by
    norm_num [grossLoss, losers, List.filter]
  exact ⟨h0, (zero_denominator_sentinels _ h0).1, (zero_denominator_sentinels _ h0).2⟩

/-! ## C7 — drawdown bounds -/

/-- Every point the drawdown pass emits is nonpositive. -/
theorem ddGo_nonpos :
    ∀ (l : List ℚ) (peak : ℚ), ∀ d ∈ ddGo peak l, d ≤ 0 := by
  intro l
  induction l with
  | nil => intro peak d hd; simp [ddGo] at hd
  | cons e rest ih =>
    intro peak d hd
    simp only [ddGo, List.mem_cons] at hd
    rcases hd with h | h
    · subst h
      by_cases hp : 0 < max peak e
      · rw [if_pos hp]
        have h1 : e - max peak e ≤ 0 := by
          have := le_max_right peak e
          linarith
        have h2 : (e - max peak e) / max peak e ≤ 0 :=
          div_nonpos_of_nonpos_of_nonneg h1 hp.le
        have h3 := mul_nonpos_of_nonpos_of_nonneg h2 (by norm_num : (0:ℚ) ≤ 100)
        linarith
      · rw [if_neg hp]
    · exact ih (max peak e) d h

/-- `foldr min 0` of any rational list is nonpositive. -/
theorem foldr_min_nonpos (l : List ℚ) : l.foldr min 0 ≤ 0 := by
  induction l with
  | nil => simp
  | cons x xs ih => exact le_trans (min_le_right x _) ih

/-- **C7.** Drawdown bounds: every point of the drawdown curve is ≤ 0 (it is
`(equity − peak) / peak × 100` under a positive running peak, else `0`), and
the reported max-drawdown magnitude is ≥ 0. -/
theorem drawdown_bounds (equity : List ℚ) :
    (∀ d ∈ drawdownCurve equity, d ≤ 0) ∧ 0 ≤ maxDrawdownMagnitude equity := by
  constructor
  · intro d hd
    match equity with
    | [] => simp [drawdownCurve] at hd
    | e :: rest =>
      simp only [drawdownCurve] at hd
      exact ddGo_nonpos (e :: rest) e d hd
  · rw [maxDrawdownMagnitude]
    have := foldr_min_nonpos (drawdownCurve equity)
    linarith

/-- Witness for C7: on the equity curve `[5, 3]` the second drawdown point
`-40` is nonpositive and the max-drawdown magnitude is nonnegative. -/
theorem drawdown_bounds_witness :
    (-40 : ℚ) ≤ 0 ∧ 0 ≤ maxDrawdownMagnitude [(5 : ℚ), 3] :=
  ⟨(drawdown_bounds [(5 : ℚ), 3]).1 (-40) (by norm_num [drawdownCurve, ddGo]),
   (drawdown_bounds [(5 : ℚ), 3]).2⟩

/-! ## C8 — report-state exclusivity -/

/-- The reducer invariant holds of the initial state. -/
theorem stateInv_initial (R C : Type) : StateInv (initialState R C) :=
  ⟨Or.inl rfl, fun h => absurd h (by simp [initialState])⟩

/-- Each reducer step preserves the invariant. -/
theorem stateInv_step {R C : Type} (s : AppState R C) (a : Action R C)
    (h : StateInv s) : StateInv (reducer s a) := by
  obtain ⟨h1, h2⟩ := h
  cases a with
  | setLoading => exact ⟨h1, fun _ => rfl⟩
  | setReport p f => exact ⟨Or.inr rfl, fun _ => rfl⟩
  | setCsvReport p f => exact ⟨Or.inl rfl, fun _ => rfl⟩
  | setError p => exact ⟨h1, fun hl => absurd hl (by simp [reducer])⟩
  | setTab p => exact ⟨h1, h2⟩
  | clear => exact stateInv_initial R C

/-- Folding any action sequence preserves the invariant. -/
theorem stateInv_foldl {R C : Type} :
    ∀ (acts : List (Action R C)) (s : AppState R C),
      StateInv s → StateInv (acts.foldl reducer s) := by
  intro acts
  induction acts with
  | nil => intro s h; exact h
  | cons a rest ih => intro s h; exact ih (reducer s a) (stateInv_step s a h)

/-- **C8.** Report-state exclusivity: from `initialState`, every reachable
reducer state has `report` or `csvReport` null (never both non-null), and
whenever `loading` is true, `error` is null. -/
theorem report_state_exclusive (R C : Type) (acts : List (Action R C)) :
    ((applyActions acts).report = none ∨ (applyActions acts).csvReport = none) ∧
    ((applyActions acts).loading = true → (applyActions acts).error = none) :=
  stateInv_foldl acts (initialState R C) (stateInv_initial R C)

/-- Witness for C8: after dispatching `SET_LOADING`, `loading` is true and
`error` is null. -/
theorem report_state_exclusive_witness :
    (@applyActions Unit Unit [Action.setLoading]).error = none :=
  (report_state_exclusive Unit Unit [Action.setLoading]).2 rfl

/-! ## C9 — upload extension gate -/

/-- **C9.** Upload extension gate: if the lowercased extension of the file
name is neither `xlsx` nor `csv`, `handleUpload` dispatches `SET_ERROR` with
the message `'Please upload an .xlsx or .csv file'` and returns without
calling `analyzeTradebook` or `uploadReport` (no network request). -/
theorem upload_extension_gate (name : String)
    (h1 : extOf name ≠ "xlsx".toList) (h2 : extOf name ≠ "csv".toList) :
    handleUpload name = .errorDispatch uploadErrorMessage ∧
    handleUpload name ≠ .analyzeCsv ∧ handleUpload name ≠ .uploadXlsx := by
  have hif : handleUpload name = .errorDispatch uploadErrorMessage := by
    simp only [handleUpload]
    rw [if_pos ⟨h1, h2⟩]
  refine ⟨hif, ?_, ?_⟩ <;> rw [hif] <;> simp

/-- Witness for C9: `report.PDF` (lowercased extension `pdf`) is rejected
with the error dispatch. -/
theorem upload_extension_gate_witness :
    handleUpload "report.PDF" = .errorDispatch uploadErrorMessage :=
  (upload_extension_gate "report.PDF" (by decide) (by decide)).1

/-! ## C10 — currency formatting thresholds -/

/-- **C10.** Currency formatting thresholds: `formatCurrency` prefixes `-`
iff the value is negative, and scales the magnitude by 1 crore (suffix `Cr`)
iff `|v| ≥ 10,000,000`, else by 1 lakh (suffix `L`) iff `|v| ≥ 100,000`,
else by 1,000 (suffix `K`) iff `|v| ≥ 1,000`, else renders the rounded
integer rupee amount. -/
theorem formatCurrency_thresholds (v : ℚ) :
    ((formatCurrency v).negative = true ↔ v < 0) ∧
    ((formatCurrency v).bucket = .crore ↔ 10000000 ≤ |v|) ∧
    ((formatCurrency v).bucket = .lakh ↔ 100000 ≤ |v| ∧ |v| < 10000000) ∧
    ((formatCurrency v).bucket = .thousand ↔ 1000 ≤ |v| ∧ |v| < 100000) ∧
    ((formatCurrency v).bucket = .rupee ↔ |v| < 1000) ∧
    ((formatCurrency v).bucket = .crore → (formatCurrency v).scaled = |v| / 10000000) ∧
    ((formatCurrency v).bucket = .lakh → (formatCurrency v).scaled = |v| / 100000) ∧
    ((formatCurrency v).bucket = .thousand → (formatCurrency v).scaled = |v| / 1000) ∧
    ((formatCurrency v).bucket = .rupee →
      (formatCurrency v).scaled = ((round |v| : ℤ) : ℚ)) := by
  simp only [formatCurrency]
  split_ifs with hc hl hk
  · exact ⟨by simp, iff_of_true rfl hc,
      iff_of_false (by simp) (by rintro ⟨_, h⟩; linarith),
      iff_of_false (by simp) (by rintro ⟨_, h⟩; linarith),
      iff_of_false (by simp) (by intro h; linarith),
      fun _ => rfl, by intro h; simp at h, by intro h; simp at h, by intro h; simp at h⟩
  · exact ⟨by simp, iff_of_false (by simp) hc,
      iff_of_true rfl ⟨hl, not_le.mp hc⟩,
      iff_of_false (by simp) (by rintro ⟨_, h⟩; linarith),
      iff_of_false (by simp) (by intro h; linarith),
      by intro h; simp at h, fun _ => rfl, by intro h; simp at h, by intro h; simp at h⟩
  · exact ⟨by simp, iff_of_false (by simp) hc,
      iff_of_false (by simp) (by rintro ⟨h, _⟩; exact hl h),
      iff_of_true rfl ⟨hk, not_le.mp hl⟩,
      iff_of_false (by simp) (by intro h; linarith),
      by intro h; simp at h, by intro h; simp at h, fun _ => rfl, by intro h; simp at h⟩
  · exact ⟨by simp, iff_of_false (by simp) hc,
      iff_of_false (by simp) (by rintro ⟨h, _⟩; exact hl h),
      iff_of_false (by simp) (by rintro ⟨h, _⟩; exact hk h),
      iff_of_true rfl (not_le.mp hk),
      by intro h; simp at h, by intro h; simp at h, by intro h; simp at h, fun _ => rfl⟩

/-- Witness for C10: `-5` rupees is rendered with a minus prefix. -/
theorem formatCurrency_thresholds_witness :
    (formatCurrency (-5 : ℚ)).negative = true :=
  (formatCurrency_thresholds (-5)).1.mpr (by norm_num)

end TradeNexus
